import Mathlib

/-!
Verification of the Squirrel memory service against its specification.

The Python sources are embedded shallowly: dataclasses become structures,
string enums stay strings where the source dispatches on strings, Python
ints become `Int`, Python floats become `ℚ` (the float thresholds 0.6, 0.8,
0.3 ... are exact decimal literals in the source and the quantities compared
against them are small-denominator rationals, so rational comparison agrees
with the double comparison the interpreter performs), timestamps become
`Int` seconds, and real vectors (used only by the retrieval ranking, whose
cosine needs a square root) become `List ℝ`.
-/

namespace Squirrel

/-! ## CR-Memory evaluator (src/sqrl/cr_memory.py) -/

/-- Result of CR-Memory evaluation (`EvalResult`). -/
inductive EvalResult where
  | no_change
  | promote
  | deprecate
deriving DecidableEq, Repr

/-- POLICY-001 promotion rule. The source fields `min_use_ratio` is rendered
here as `min_use_frac` (a ℚ model of the float field). -/
structure PromotionRule where
  min_opportunities : Int
  min_use_frac : ℚ
  min_regret_hits : Int
deriving DecidableEq, Repr

/-- POLICY-002 deprecation rule; `max_use_ratio` is rendered `max_use_frac`. -/
structure DeprecationRule where
  min_opportunities : Int
  max_use_frac : ℚ
deriving DecidableEq, Repr

/-- POLICY-003 decay rule; `none` disables time-based decay. -/
structure DecayRule where
  max_inactive_days : Option Int
deriving DecidableEq, Repr

/-- POLICY-004 regret weights. -/
structure RegretWeights where
  alpha_errors : ℚ
  beta_retries : ℚ
deriving DecidableEq, Repr

/-- POLICY-005 TTL defaults. -/
structure TTLDefaults where
  short_term_days : Int
  emergency_days : Int
  extend_on_promotion_days : Int
  remove_on_long_term : Bool
deriving DecidableEq, Repr

/-- Full policy configuration (`Policy` dataclass). -/
structure Policy where
  promotion_default : PromotionRule
  promotion_invariant : PromotionRule
  promotion_guard : PromotionRule
  deprecation_default : DeprecationRule
  deprecation_guard : DeprecationRule
  deprecation_note : DeprecationRule
  decay_guard : DecayRule
  decay_pattern : DecayRule
  decay_note : DecayRule
  decay_preference : DecayRule
  decay_invariant : DecayRule
  regret_weights : RegretWeights
  ttl : TTLDefaults
deriving DecidableEq, Repr

/-- The built-in defaults of the `Policy` dataclass fields. -/
def defaultPolicy : Policy where
  promotion_default := ⟨5, 6/10, 2⟩
  promotion_invariant := ⟨3, 5/10, 1⟩
  promotion_guard := ⟨10, 3/10, 3⟩
  deprecation_default := ⟨10, 1/10⟩
  deprecation_guard := ⟨20, 5/100⟩
  deprecation_note := ⟨5, 2/10⟩
  decay_guard := ⟨some 90⟩
  decay_pattern := ⟨some 180⟩
  decay_note := ⟨some 60⟩
  decay_preference := ⟨some 365⟩
  decay_invariant := ⟨none⟩
  regret_weights := ⟨1, 1/2⟩
  ttl := ⟨30, 7, 180, true⟩

/-- `Policy.get_promotion_rule`: dict lookup with `promotion_default` fallback. -/
def Policy.get_promotion_rule (p : Policy) (kind : String) : PromotionRule :=
  if kind = "invariant" then p.promotion_invariant
  else if kind = "guard" then p.promotion_guard
  else p.promotion_default

/-- `Policy.get_deprecation_rule`: dict lookup with `deprecation_default` fallback. -/
def Policy.get_deprecation_rule (p : Policy) (kind : String) : DeprecationRule :=
  if kind = "guard" then p.deprecation_guard
  else if kind = "note" then p.deprecation_note
  else p.deprecation_default

/-- `Policy.get_decay_rule`: dict `.get` returning `None` for unlisted kinds. -/
def Policy.get_decay_rule (p : Policy) (kind : String) : Option DecayRule :=
  if kind = "guard" then some p.decay_guard
  else if kind = "pattern" then some p.decay_pattern
  else if kind = "note" then some p.decay_note
  else if kind = "preference" then some p.decay_preference
  else if kind = "invariant" then some p.decay_invariant
  else none

/-- `MemoryMetrics` dataclass; timestamps are `Int` seconds since the epoch. -/
structure MemoryMetrics where
  memory_id : String
  use_count : Int
  opportunities : Int
  suspected_regret_hits : Int
  estimated_regret_saved : ℚ
  last_used_at : Option Int
  last_evaluated_at : Option Int
deriving DecidableEq, Repr

/-- Minimal memory info for evaluation (`Memory` dataclass). -/
structure Memory where
  id : String
  kind : String
  status : String
  tier : String
  expires_at : Option Int
deriving DecidableEq, Repr

/-- Decision from CR-Memory evaluation (`EvalDecision`). The `reason`
strings elide the numeric interpolation of the source's f-strings. -/
structure EvalDecision where
  memory_id : String
  result : EvalResult
  new_status : Option String
  new_tier : Option String
  new_expires_at : Option Int
  reason : String
deriving DecidableEq, Repr

/-- `days_since`: `(now - dt).days`, flooring like `timedelta.days`. -/
def days_since (dt : Option Int) (now : Int) : Option Int :=
  dt.map (fun d => Int.fdiv (now - d) 86400)

/-- Python truthiness of `decay and decay.max_inactive_days`: the threshold is
live only when the rule exists, the field is not `None`, and it is nonzero. -/
def decayThreshold (decay : Option DecayRule) : Option Int :=
  match decay with
  | none => none
  | some d =>
    match d.max_inactive_days with
    | none => none
    | some n => if n = 0 then none else some n

/-- `use_ratio = uses / opp if opp > 0 else 0.0`, rendered in ℚ. -/
def useFrac (metrics : MemoryMetrics) : ℚ :=
  if 0 < metrics.opportunities then
    (metrics.use_count : ℚ) / (metrics.opportunities : ℚ)
  else 0

/-- Whether time-based decay fires: `decay and decay.max_inactive_days` is
truthy, `inactive_days is not None`, and `inactive_days > max_inactive_days`. -/
def decayFires (decay : Option DecayRule) (last_used_at : Option Int) (now : Int) : Bool :=
  match decayThreshold decay, days_since last_used_at now with
  | some maxDays, some inact => decide (inact > maxDays)
  | _, _ => false

/-- `CRMemoryEvaluator.evaluate`: pure decision function, mirrored clause by
clause from the source (deprecated short-circuit, low-evidence decay check,
promotion, deprecation, decay, no-change). -/
def evaluate (policy : Policy) (memory : Memory) (metrics : MemoryMetrics) (now : Int) :
    EvalDecision :=
  if memory.status = "deprecated" then
    ⟨memory.id, .no_change, none, none, none, "Already deprecated"⟩
  else
    let opp := metrics.opportunities
    let hits := metrics.suspected_regret_hits
    let promo := policy.get_promotion_rule memory.kind
    let deprec := policy.get_deprecation_rule memory.kind
    let decay := policy.get_decay_rule memory.kind
    if opp < promo.min_opportunities then
      if decayFires decay metrics.last_used_at now then
        ⟨memory.id, .deprecate, some "deprecated", none, none, "Inactive too long"⟩
      else
        ⟨memory.id, .no_change, none, none, none, "Not enough opportunities"⟩
    else
      let frac := useFrac metrics
      if frac ≥ promo.min_use_frac ∧ hits ≥ promo.min_regret_hits then
        let tierExpires : String × Option Int :=
          if memory.status = "provisional" ∧ frac ≥ 8/10 then
            ("long_term", if policy.ttl.remove_on_long_term then none else memory.expires_at)
          else
            match memory.expires_at with
            | some _ => (memory.tier, some (now + policy.ttl.extend_on_promotion_days * 86400))
            | none => (memory.tier, memory.expires_at)
        ⟨memory.id, .promote, some "active", some tierExpires.1, tierExpires.2, "Promoted"⟩
      else if opp ≥ deprec.min_opportunities ∧ frac ≤ deprec.max_use_frac then
        ⟨memory.id, .deprecate, some "deprecated", none, none, "Deprecated low use"⟩
      else if decayFires decay metrics.last_used_at now then
        ⟨memory.id, .deprecate, some "deprecated", none, none, "Inactive too long"⟩
      else
        ⟨memory.id, .no_change, none, none, none, "No change"⟩

/-! ## Store metrics table (src/sqrl/db/repository.py)

The claims about the store concern only the `memory_metrics` table, so the
state is modelled as that table: a list of rows. Each repository function is
embedded as its effect on this table (the SQL statement it executes). -/

/-- A `memory_metrics` row. -/
structure MetricsRow where
  memory_id : String
  use_count : Int
  opportunities : Int
  suspected_regret_hits : Int
  estimated_regret_saved : ℚ
  last_used_at : Option Int
deriving DecidableEq, Repr

/-- Modelled from the spec: the column defaults of the `memory_metrics`
schema (src/sqrl/db/schema.py is not in the source tree). `insert_memory`
runs `INSERT INTO memory_metrics (memory_id) VALUES (?)`, and the spec fixes
all counters of the created row to 0 (§8: "exactly one metrics row with all
counters = 0"), as the repository test `test_insert_memory` also asserts. -/
def initialMetricsRow (id : String) : MetricsRow :=
  ⟨id, 0, 0, 0, 0, none⟩

/-- Effect of `insert_memory` on the `memory_metrics` table: one fresh row
with the schema defaults. (The memory and evidence rows it also inserts do
not carry metrics counters.) -/
def insert_memory_metrics (tbl : List MetricsRow) (id : String) : List MetricsRow :=
  tbl ++ [initialMetricsRow id]

/-- `increment_use_count`: `UPDATE memory_metrics SET use_count = use_count + 1,
last_used_at = ? WHERE memory_id = ?`. -/
def increment_use_count (tbl : List MetricsRow) (id : String) (now : Int) : List MetricsRow :=
  tbl.map (fun r =>
    if r.memory_id = id then
      { r with use_count := r.use_count + 1, last_used_at := some now }
    else r)

/-- `increment_opportunities`: early return on an empty id list, else
`UPDATE memory_metrics SET opportunities = opportunities + 1 WHERE memory_id IN (...)`. -/
def increment_opportunities (tbl : List MetricsRow) (ids : List String) : List MetricsRow :=
  if ids = [] then tbl
  else tbl.map (fun r =>
    if r.memory_id ∈ ids then { r with opportunities := r.opportunities + 1 } else r)

/-- The spec invariant `use_count ≤ opportunities` over the metrics table. -/
def metricsInv (tbl : List MetricsRow) : Prop :=
  ∀ r ∈ tbl, r.use_count ≤ r.opportunities

instance (tbl : List MetricsRow) : Decidable (metricsInv tbl) := by
  unfold metricsInv; infer_instance

/-! ## Embeddings (src/sqrl/embeddings.py) -/

/-- Little-endian byte serialization of one 32-bit word, as `struct.pack "<f"`
lays out the four bytes of an IEEE-754 float32 bit pattern. -/
def toLEBytes (w : Nat) : List Nat :=
  [w % 256, w / 256 % 256, w / 65536 % 256, w / 16777216 % 256]

/-- Recombine four little-endian bytes into the 32-bit word. -/
def fromLEBytes (b0 b1 b2 b3 : Nat) : Nat :=
  b0 + 256 * b1 + 65536 * b2 + 16777216 * b3

/-- `embedding_to_bytes`: `struct.pack` of the vector as consecutive
little-endian float32 values. Each float32 is modelled by its 32-bit IEEE-754
bit pattern (a `Nat` below `2^32`); for the float32-representable values the
claims quantify over, the float64 to float32 conversion inside `pack` is the
identity on these patterns. -/
def embedding_to_bytes (v : List Nat) : List Nat :=
  (v.map toLEBytes).flatten

/-- `bytes_to_embedding`: `struct.unpack` of `len(data) // 4` little-endian
float32 values; a trailing group of fewer than 4 bytes is not decoded. -/
def bytes_to_embedding : List Nat → List Nat
  | b0 :: b1 :: b2 :: b3 :: rest => fromLEBytes b0 b1 b2 b3 :: bytes_to_embedding rest
  | _ => []

/-- `EmbeddingConfig` dataclass; the float fields are rendered in ℚ. -/
structure EmbeddingConfig where
  model : String
  dimensions : Int
  max_retries : Nat
  retry_delay : ℚ
  retry_backoff : ℚ
deriving DecidableEq, Repr

/-- The dataclass defaults of `EmbeddingConfig`. -/
def defaultEmbeddingConfig : EmbeddingConfig :=
  ⟨"text-embedding-3-small", 1536, 3, 1, 2⟩

/-- Decide whether the character list `pat` occurs as a contiguous
subsequence of `l` (Python `pat in l` on strings). -/
def containsSeq (pat : List Char) : List Char → Bool
  | [] => pat.isPrefixOf []
  | c :: cs => pat.isPrefixOf (c :: cs) || containsSeq pat cs

/-- The `retryable_patterns` list of `_is_retryable_error`. -/
def retryable_patterns : List (List Char) :=
  ["rate limit".data, "timeout".data, "connection".data,
   "temporarily unavailable".data, "503".data, "502".data, "500".data, "429".data]

/-- `_is_retryable_error`: some retryable pattern occurs in the lowercased
rendering of the provider error. -/
def is_retryable_error (e : List Char) : Bool :=
  retryable_patterns.any (fun p => containsSeq p (e.map Char.toLower))

/-- The error raised by the embedder: its JSON-RPC code and, for code
-32041, the rendering of the last underlying provider error (`from last_error`). -/
structure EmbErr where
  code : Int
  cause : Option (List Char)
deriving DecidableEq, Repr

/-- Observable outcome of one `embed_text_sync` run: how many provider calls
were made, which delays were slept between consecutive attempts, and the
final result. -/
structure EmbedRun where
  attempts : Nat
  sleeps : List ℚ
  result : Except EmbErr (List ℚ)
deriving Repr

/-- The retry loop of `embed_text_sync` (`for attempt in range(max_retries + 1)`).
The provider (the `litellm.embedding` call) is an explicit capability mapping
the attempt index to a vector or an error rendering; `remaining` counts the
loop iterations still allowed, `last` threads `last_error`. On a retryable
failure that is not the final attempt the loop sleeps `delay` and multiplies
it by the backoff; a non-retryable failure breaks; exhaustion raises code
-32041 carrying the last error. -/
def embedGo (provider : Nat → Except (List Char) (List ℚ)) (backoff : ℚ) :
    Nat → Nat → ℚ → Option (List Char) → EmbedRun
  | 0, _, _, last => ⟨0, [], .error ⟨-32041, last⟩⟩
  | r + 1, i, d, _ =>
    match provider i with
    | .ok v => ⟨1, [], .ok v⟩
    | .error e =>
      if is_retryable_error e then
        match r with
        | 0 => ⟨1, [], .error ⟨-32041, some e⟩⟩
        | r2 + 1 =>
          let rest := embedGo provider backoff (r2 + 1) (i + 1) (d * backoff) (some e)
          ⟨rest.attempts + 1, d :: rest.sleeps, rest.result⟩
      else ⟨1, [], .error ⟨-32041, some e⟩⟩

/-- Python blank test `not text or not text.strip()`: empty or all-whitespace. -/
def isBlank (t : List Char) : Bool :=
  t.all Char.isWhitespace

/-- `embed_text_sync`: raises -32040 on blank text, otherwise runs the retry
loop with the configured initial delay and backoff. -/
def embed_text_sync (provider : Nat → Except (List Char) (List ℚ))
    (cfg : EmbeddingConfig) (text : List Char) : EmbedRun :=
  if isBlank text then ⟨0, [], .error ⟨-32040, none⟩⟩
  else embedGo provider cfg.retry_backoff (cfg.max_retries + 1) 0 cfg.retry_delay none

/-! ## Retrieval engine (src/sqrl/retrieval.py)

Vectors are `List ℝ`; the cosine needs `Real.sqrt`, so this section is
noncomputable. The query embedding (obtained from the network in the source)
is an explicit parameter. -/

/-- Fields of `MemoryOp` used by ranking and formatting; kinds and tiers are
their lowercase wire strings. -/
structure MemoryOpR where
  kind : String
  tier : String
  polarity : Int
  text : String

/-- `StoredMemory`: a memory with its embedding and store id. -/
structure StoredMemory where
  memory : MemoryOpR
  embedding : List ℝ
  id : String

/-- `RetrievalResult`. -/
structure RetrievalResult where
  memories : List StoredMemory
  scores : List ℝ

/-- `np.dot` on equal-length vectors. -/
def dotList (a b : List ℝ) : ℝ :=
  (List.zipWith (fun x y => x * y) a b).sum

/-- `np.linalg.norm`: the Euclidean norm. -/
noncomputable def normList (a : List ℝ) : ℝ :=
  Real.sqrt (dotList a a)

/-- `Retriever._cosine_similarity`. -/
noncomputable def cosineSim (a b : List ℝ) : ℝ :=
  dotList a b / (normList a * normList b)

/-- The `tier_boost` dict with its `.get(tier, 0.0)` default. -/
noncomputable def tier_boost (tier : String) : ℝ :=
  if tier = "emergency" then 3/10
  else if tier = "long_term" then 2/10
  else 0

/-- The `kind_boost` dict with its `.get(kind, 0.0)` default. -/
noncomputable def kind_boost (kind : String) : ℝ :=
  if kind = "invariant" then 15/100
  else if kind = "preference" then 15/100
  else if kind = "pattern" then 1/10
  else if kind = "guard" then 5/100
  else 0

/-- `Retriever._rank_score`: similarity plus tier and kind priors. -/
noncomputable def rank_score (m : MemoryOpR) (similarity : ℝ) : ℝ :=
  similarity + tier_boost m.tier + kind_boost m.kind

/-- Insert into a descending-by-key list, before the first element whose key
does not exceed the inserted one. -/
noncomputable def insertDesc (key : α → ℝ) (x : α) : List α → List α
  | [] => [x]
  | y :: ys => if key y ≤ key x then x :: y :: ys else y :: insertDesc key x ys

/-- Python's `list.sort(key=..., reverse=True)`: a stable descending sort.
Insertion sort with the strict-placement rule of `insertDesc` is stable, so
equal keys keep their original relative order, as `list.sort` guarantees. -/
noncomputable def sortDesc (key : α → ℝ) : List α → List α
  | [] => []
  | x :: xs => insertDesc key x (sortDesc key xs)

/-- `Retriever.retrieve`: filter by similarity threshold, sort by rank score
descending (stable), truncate to `top_k`, and return the raw similarity
scores alongside the memories. -/
noncomputable def retrieve (store : List StoredMemory) (query_embedding : List ℝ)
    (top_k : Nat) (min_similarity : ℝ) : RetrievalResult :=
  if store.isEmpty then ⟨[], []⟩
  else
    let scored := store.filterMap (fun stored =>
      let s := cosineSim query_embedding stored.embedding
      if s ≥ min_similarity then some (stored, s, rank_score stored.memory s) else none)
    let sorted := sortDesc (fun x => x.2.2) scored
    let top := sorted.take top_k
    ⟨top.map (fun x => x.1), top.map (fun x => x.2.1)⟩

/-! ## Claude Code parser (src/sqrl/parsers/claude_code.py)

Text is `List Char`. The event model (`sqrl.parsers.base`, not in the source
tree) is modelled from the spec §4.F. -/

/-- Modelled from the spec: `Role` of a session event (sqrl.parsers.base). -/
inductive Role where
  | user
  | assistant
  | system
deriving DecidableEq, Repr

/-- Modelled from the spec: `EventKind` of a session event (sqrl.parsers.base). -/
inductive EventKind where
  | message
  | tool_call
  | tool_result
deriving DecidableEq, Repr

/-- Modelled from the spec: the `Frustration` levels (sqrl.parsers.base),
ordered none < mild < moderate < severe. -/
inductive Frustration where
  | none
  | mild
  | moderate
  | severe
deriving DecidableEq, Repr

/-- Severity rank of a frustration level, for the max in episode stats. -/
def Frustration.rank : Frustration → Nat
  | .none => 0
  | .mild => 1
  | .moderate => 2
  | .severe => 3

/-- Modelled from the spec: a normalized session `Event` (sqrl.parsers.base);
`ts` is `Int` seconds. -/
structure Event where
  ts : Int
  role : Role
  kind : EventKind
  summary : List Char
  tool_name : Option (List Char)
  file : Option (List Char)
  is_error : Bool
deriving DecidableEq, Repr

instance : Inhabited Event :=
  ⟨⟨0, .user, .message, [], Option.none, Option.none, false⟩⟩

/-- Regex word characters `[a-zA-Z0-9_]` (the texts involved are ASCII). -/
def isWordChar (c : Char) : Bool :=
  c.isAlphanum || c = '_'

/-- A `\b` word boundary holds before a match starting after `pre`. -/
def boundaryBefore : Option Char → Bool
  | Option.none => true
  | some c => !isWordChar c

/-- A `\b` word boundary holds at the start of the remaining text. -/
def boundaryAfter : List Char → Bool
  | [] => true
  | c :: _ => !isWordChar c

/-- The token `w` matches here with word boundaries on both sides. -/
def wordHere (w : List Char) (pre : Option Char) (rest : List Char) : Bool :=
  boundaryBefore pre && w.isPrefixOf rest && boundaryAfter (rest.drop w.length)

/-- Scan for `\bw\b` at every position, tracking the preceding character. -/
def scanWord (w : List Char) : Option Char → List Char → Bool
  | pre, [] => wordHere w pre []
  | pre, c :: cs => wordHere w pre (c :: cs) || scanWord w (some c) cs

/-- `re.search(r"\bw\b", t)` for a token `w` of word characters. -/
def containsWordTok (w : List Char) (t : List Char) : Bool :=
  scanWord w Option.none t

/-- The phrase `w` matches here with a word boundary on the left only
(the moderate-frustration phrase patterns carry no trailing boundary). -/
def phraseHere (w : List Char) (pre : Option Char) (rest : List Char) : Bool :=
  boundaryBefore pre && w.isPrefixOf rest

/-- Scan for a left-bounded phrase at every position. -/
def scanPhrase (w : List Char) : Option Char → List Char → Bool
  | pre, [] => phraseHere w pre []
  | pre, c :: cs => phraseHere w pre (c :: cs) || scanPhrase w (some c) cs

/-- `re.search` for the left-bounded phrase patterns. -/
def containsPhraseTok (w : List Char) (t : List Char) : Bool :=
  scanPhrase w Option.none t

/-- Count the leading run of `m` characters and return the remainder. -/
def countLeadM : List Char → Nat × List Char
  | [] => (0, [])
  | c :: cs => if c = 'm' then let p := countLeadM cs; (p.1 + 1, p.2) else (0, c :: cs)

/-- `\b(hmm|hm+)\b` matches at this position: a boundary, `h`, a nonempty
maximal run of `m`, then a boundary (backtracking cannot stop mid-run, since
the next character would be the word character `m`). -/
def hmHere (pre : Option Char) (rest : List Char) : Bool :=
  boundaryBefore pre &&
    match rest with
    | c :: cs => c = 'h' && (let p := countLeadM cs; decide (1 ≤ p.1) && boundaryAfter p.2)
    | [] => false

/-- Scan for the `hm+` word anywhere. -/
def scanHm : Option Char → List Char → Bool
  | pre, [] => hmHere pre []
  | pre, c :: cs => hmHere pre (c :: cs) || scanHm (some c) cs

/-- The severe profanity tokens of `FRUSTRATION_PATTERNS`. -/
def severe_words : List (List Char) :=
  ["fuck".data, "shit".data, "damn".data, "wtf".data, "ffs".data]

/-- The moderate word tokens of `FRUSTRATION_PATTERNS`. -/
def moderate_words : List (List Char) :=
  ["finally".data, "ugh".data, "argh".data, "sigh".data]

/-- The moderate left-bounded phrases: `\b(why (won't|doesn't|isn't|can't))`
and `\b(still (not|doesn't|won't))`, expanded. -/
def moderate_phrases : List (List Char) :=
  ["why won\x27t".data, "why doesn\x27t".data, "why isn\x27t".data, "why can\x27t".data,
   "still not".data, "still doesn\x27t".data, "still won\x27t".data]

/-- Some severe pattern matches: a profanity token, or `!!{2,}` (an
exclamation mark followed by at least two more, i.e. the substring `!!!`). -/
def severeMatch (t : List Char) : Bool :=
  severe_words.any (fun w => containsWordTok w t) || containsSeq "!!!".data t

/-- Some moderate pattern matches. -/
def moderateMatch (t : List Char) : Bool :=
  moderate_words.any (fun w => containsWordTok w t) ||
    moderate_phrases.any (fun w => containsPhraseTok w t)

/-- Some mild pattern matches: `\b(hmm|hm+)\b` or `\?{2,}` (substring `??`). -/
def mildMatch (t : List Char) : Bool :=
  scanHm Option.none t || containsSeq "??".data t

/-- `detect_frustration`: lowercase, then first match among severe,
moderate, mild wins; default none. -/
def detect_frustration (text : List Char) : Frustration :=
  let t := text.map Char.toLower
  if severeMatch t then .severe
  else if moderateMatch t then .moderate
  else if mildMatch t then .mild
  else .none

/-- Python `str.split()`: split on runs of whitespace, dropping empties;
`acc` holds the current word reversed. -/
def splitWsAux : List Char → List Char → List (List Char)
  | [], acc => if acc = [] then [] else [acc.reverse]
  | c :: cs, acc =>
    if c.isWhitespace then
      if acc = [] then splitWsAux cs [] else acc.reverse :: splitWsAux cs []
    else splitWsAux cs (c :: acc)

/-- Whitespace tokenization of an error string. -/
def splitWs (l : List Char) : List (List Char) :=
  splitWsAux l []

/-- The distinct words of an error string (Python `set(err.split())`). -/
def wordSet (e : List Char) : List (List Char) :=
  (splitWs e).dedup

/-- `_similar_errors`: empty word sets are never similar; otherwise the
distinct common words must exceed 30% of the smaller set. -/
def similar_errors (e1 e2 : List Char) : Bool :=
  let w1 := wordSet e1
  let w2 := wordSet e2
  let common := w1.filter (fun w => w ∈ w2)
  if w1 = [] || w2 = [] then false
  else decide ((common.length : ℚ) / ((min w1.length w2.length : Nat) : ℚ) > 3/10)

/-- The normalized comparison key of an error event: the first 50 characters
of the summary, lowercased. -/
def errorKey (e : Event) : List Char :=
  (e.summary.take 50).map Char.toLower

/-- Python `l[-n:]`. -/
def lastN (n : Nat) (l : List α) : List α :=
  l.drop (l.length - n)

/-- The loop of `detect_retry_loops`: `recent` accumulates the keys of all
error events seen so far; an error similar to one of the last five recorded
keys counts as a retry. -/
def detectRetryGo : List Event → List (List Char) → Nat → Nat
  | [], _, n => n
  | e :: es, recent, n =>
    if e.is_error && !e.summary.isEmpty then
      let key := errorKey e
      let hit := (lastN 5 recent).any (fun prev => similar_errors key prev)
      detectRetryGo es (recent ++ [key]) (if hit then n + 1 else n)
    else detectRetryGo es recent n

/-- `detect_retry_loops`. -/
def detect_retry_loops (events : List Event) : Nat :=
  detectRetryGo events [] 0

/-- The keys of the error events with a nonempty summary, in order. -/
def errorKeys (events : List Event) : List (List Char) :=
  events.filterMap (fun e =>
    if e.is_error && !e.summary.isEmpty then some (errorKey e) else Option.none)

/-- Stated from the spec sentence for the C9 refinement: the number of error
events whose key is similar to one of the last five keys preceding it. -/
def retrySpecCount (events : List Event) : Nat :=
  let keys := errorKeys events
  ((List.range keys.length).filter (fun j =>
    (lastN 5 (keys.take j)).any (fun p => similar_errors (keys.getD j []) p))).length

/-- Consecutive assistant events immediately before index `i`. -/
def countBack (events : List Event) : Nat → Nat
  | 0 => 0
  | j + 1 => if (events.getD j default).role = Role.assistant then countBack events j + 1 else 0

/-- `find_task_boundaries`: index 0 always; an index whose predecessor is
more than 30 minutes (1800 s) earlier; a user message after at least 10
consecutive assistant events. -/
def find_task_boundaries (events : List Event) : List Nat :=
  if events.length < 2 then [0]
  else
    0 :: (List.range (events.length - 1)).filterMap (fun i0 =>
      let i := i0 + 1
      let prev := events.getD (i - 1) default
      let curr := events.getD i default
      if curr.ts - prev.ts > 1800 then some i
      else if curr.role = Role.user ∧ curr.kind = EventKind.message ∧ 10 ≤ countBack events i
        then some i else Option.none)

/-- Modelled from the spec: `EpisodeStats` (sqrl.parsers.base). -/
structure EpisodeStats where
  error_count : Nat
  retry_loops : Nat
  user_frustration : Frustration
deriving DecidableEq, Repr

/-- Modelled from the spec: an `Episode` (sqrl.parsers.base). -/
structure Episode where
  session_id : String
  project_id : String
  start_ts : Int
  end_ts : Int
  events : List Event
  stats : EpisodeStats
deriving DecidableEq, Repr

instance : Inhabited Episode :=
  ⟨⟨"", "", 0, 0, [], ⟨0, 0, .none⟩⟩⟩

/-- Maximal frustration over user messages (`_compute_stats` inner loop). -/
def maxFrustration (events : List Event) : Frustration :=
  events.foldl (fun acc e =>
    if e.role = Role.user ∧ e.kind = EventKind.message then
      let f := detect_frustration e.summary
      if acc.rank < f.rank then f else acc
    else acc) .none

/-- `_compute_stats`. -/
def compute_stats (events : List Event) : EpisodeStats :=
  ⟨(events.filter (fun e => e.is_error)).length, detect_retry_loops events,
    maxFrustration events⟩

/-- The slice `events[boundaries[i] : boundaries[i+1]]`. -/
def segmentOf (events : List Event) (bs : List Nat) (i : Nat) : List Event :=
  (events.drop (bs.getD i 0)).take (bs.getD (i + 1) 0 - bs.getD i 0)

/-- One iteration of the episode-building loop of `split_into_episodes`: a
segment of fewer than 3 events is merged into the previous episode when one
exists and is silently skipped otherwise; other segments become episodes. -/
def splitStep (events : List Event) (session_id project_id : String) (bs : List Nat)
    (acc : List Episode) (i : Nat) : List Episode :=
  let epEvents := segmentOf events bs i
  if epEvents.length < 3 then
    match acc.getLast? with
    | Option.none => acc
    | some prev =>
      let merged := prev.events ++ epEvents
      acc.dropLast ++ [⟨prev.session_id, prev.project_id, prev.start_ts,
        ((epEvents.getLast?).getD default).ts, merged, compute_stats merged⟩]
  else
    acc ++ [⟨session_id ++ "_" ++ toString i, project_id,
      ((epEvents.head?).getD default).ts, ((epEvents.getLast?).getD default).ts,
      epEvents, compute_stats epEvents⟩]

/-- `split_into_episodes`: boundary detection, the per-segment loop, and the
fallback single episode when no segment survived. -/
def split_into_episodes (events : List Event) (session_id project_id : String) :
    List Episode :=
  if events = [] then []
  else
    let bs := find_task_boundaries events ++ [events.length]
    let episodes :=
      (List.range (bs.length - 1)).foldl (splitStep events session_id project_id bs) []
    if episodes = [] then
      [⟨session_id, project_id, ((events.head?).getD default).ts,
        ((events.getLast?).getD default).ts, events, compute_stats events⟩]
    else episodes

/-! ## IPC server (agent/src/sqrl/ipc/server.py) -/

/-- A JSON-RPC request id (number or string). -/
inductive RpcId where
  | num (n : Int)
  | str (s : String)
deriving DecidableEq, Repr

/-- A parsed request as `handle_connection` reads it: `request.get("id")`
yields `none` when the member is absent (a notification) or JSON null. -/
structure RpcRequest where
  id : Option RpcId
  method : String
deriving DecidableEq, Repr

/-- Outcome of `dispatch(method, params)`: a result, a raised `JsonRpcError`,
or any other exception. -/
inductive DispatchOutcome where
  | ok
  | rpcError (code : Int) (message : String)
  | exn (message : String)
deriving DecidableEq, Repr

/-- The response line written back, reduced to the fields the claims speak
about; `id = none` serializes as JSON null. -/
structure RpcResponse where
  id : Option RpcId
  hasError : Bool
  errCode : Option Int
deriving DecidableEq, Repr

/-- One iteration of the `handle_connection` read loop, for one received
line: a parse failure answers -32700 with id null; otherwise the request is
dispatched and a response carrying `request.get("id")` is always written —
the loop never suppresses the response for an id-less request. -/
def handle_line (parsed : Except String RpcRequest)
    (outcome : RpcRequest → DispatchOutcome) : Option RpcResponse :=
  match parsed with
  | .error _ => some ⟨Option.none, true, some (-32700)⟩
  | .ok req =>
    match outcome req with
    | .ok => some ⟨req.id, false, Option.none⟩
    | .rpcError c _ => some ⟨req.id, true, some c⟩
    | .exn _ => some ⟨req.id, true, some (-32603)⟩

/-! ## Theorems -/

/-- C1: for a non-deprecated memory whose opportunities reach the kind's
promotion minimum, a use ratio exactly at `min_use_ratio` together with
regret hits exactly at `min_regret_hits` promotes with new status `active`;
when moreover the memory is provisional with use ratio at least 0.80 and the
TTL policy removes TTLs on long-term promotion, the decision carries tier
`long_term` and a cleared `expires_at`. -/
theorem evaluate_exact_threshold_promotes
    (policy : Policy) (memory : Memory) (metrics : MemoryMetrics) (now : Int)
    (hstatus : memory.status ≠ "deprecated")
    (hopp : (policy.get_promotion_rule memory.kind).min_opportunities ≤ metrics.opportunities)
    (hfrac : useFrac metrics = (policy.get_promotion_rule memory.kind).min_use_frac)
    (hhits : metrics.suspected_regret_hits = (policy.get_promotion_rule memory.kind).min_regret_hits) :
    (evaluate policy memory metrics now).result = .promote ∧
      (evaluate policy memory metrics now).new_status = some "active" ∧
      (memory.status = "provisional" → useFrac metrics ≥ 8/10 →
        policy.ttl.remove_on_long_term = true →
        (evaluate policy memory metrics now).new_tier = some "long_term" ∧
          (evaluate policy memory metrics now).new_expires_at = Option.none) := by
  have hcond : useFrac metrics ≥ (policy.get_promotion_rule memory.kind).min_use_frac ∧
      metrics.suspected_regret_hits ≥ (policy.get_promotion_rule memory.kind).min_regret_hits :=
    ⟨le_of_eq hfrac.symm, le_of_eq hhits.symm⟩
  have hnl : ¬ (metrics.opportunities < (policy.get_promotion_rule memory.kind).min_opportunities) :=
    not_lt.mpr hopp
  unfold evaluate
  rw [if_neg hstatus]
  simp only []
  rw [if_neg hnl, if_pos hcond]
  refine ⟨rfl, rfl, ?_⟩
  intro h1 h2 h3
  rw [if_pos ⟨h1, h2⟩, if_pos h3]
  exact ⟨rfl, rfl⟩

/-- Witness for C1 at a concrete memory and a policy whose default promotion
rule demands exactly the 0.8 ratio, exercising the long-term branch. -/
theorem evaluate_exact_threshold_promotes_witness :
    (evaluate { defaultPolicy with promotion_default := ⟨5, 8/10, 2⟩ }
        ⟨"m1", "pattern", "provisional", "short_term", some 1000⟩
        ⟨"m1", 4, 5, 2, 0, Option.none, Option.none⟩ 0).result = .promote ∧
      (evaluate { defaultPolicy with promotion_default := ⟨5, 8/10, 2⟩ }
        ⟨"m1", "pattern", "provisional", "short_term", some 1000⟩
        ⟨"m1", 4, 5, 2, 0, Option.none, Option.none⟩ 0).new_status = some "active" ∧
      (evaluate { defaultPolicy with promotion_default := ⟨5, 8/10, 2⟩ }
        ⟨"m1", "pattern", "provisional", "short_term", some 1000⟩
        ⟨"m1", 4, 5, 2, 0, Option.none, Option.none⟩ 0).new_tier = some "long_term" ∧
      (evaluate { defaultPolicy with promotion_default := ⟨5, 8/10, 2⟩ }
        ⟨"m1", "pattern", "provisional", "short_term", some 1000⟩
        ⟨"m1", 4, 5, 2, 0, Option.none, Option.none⟩ 0).new_expires_at = Option.none := by
  have h := evaluate_exact_threshold_promotes
    { defaultPolicy with promotion_default := ⟨5, 8/10, 2⟩ }
    ⟨"m1", "pattern", "provisional", "short_term", some 1000⟩
    ⟨"m1", 4, 5, 2, 0, Option.none, Option.none⟩ 0
    (by decide) (by decide)
    (by simp only [useFrac, Policy.get_promotion_rule, defaultPolicy, String.reduceEq, reduceIte]; norm_num) (by decide)
  have h8 : useFrac ⟨"m1", 4, 5, 2, 0, Option.none, Option.none⟩ ≥ 8/10 := by
    norm_num [useFrac]
  exact ⟨h.1, h.2.1, (h.2.2 rfl h8 rfl).1, (h.2.2 rfl h8 rfl).2⟩

/-- C2: an invariant-kind memory under a policy whose invariant decay rule is
disabled is never deprecated while its opportunities are below the invariant
promotion minimum — the evaluation is a no-change, however old
`last_used_at` is. -/
theorem invariant_low_opportunity_no_change
    (policy : Policy) (memory : Memory) (metrics : MemoryMetrics) (now : Int)
    (hkind : memory.kind = "invariant")
    (hdecay : policy.decay_invariant.max_inactive_days = Option.none)
    (hopp : metrics.opportunities < policy.promotion_invariant.min_opportunities) :
    (evaluate policy memory metrics now).result = .no_change := by
  unfold evaluate
  by_cases hs : memory.status = "deprecated"
  · rw [if_pos hs]
  · rw [if_neg hs]
    simp only []
    have hpromo : policy.get_promotion_rule memory.kind = policy.promotion_invariant := by
      simp [Policy.get_promotion_rule, hkind]
    have hdec : policy.get_decay_rule memory.kind = some policy.decay_invariant := by
      simp [Policy.get_decay_rule, hkind]
    rw [hpromo, hdec, if_pos hopp]
    have : decayFires (some policy.decay_invariant) metrics.last_used_at now = false := by
      simp [decayFires, decayThreshold, hdecay]
    rw [this]
    simp

/-- Witness for C2: the default policy, two opportunities, a year-old
`last_used_at`. -/
theorem invariant_low_opportunity_no_change_witness :
    (evaluate defaultPolicy ⟨"m2", "invariant", "provisional", "short_term", Option.none⟩
        ⟨"m2", 1, 2, 0, 0, some (-31536000), Option.none⟩ 0).result = .no_change :=
  invariant_low_opportunity_no_change defaultPolicy
    ⟨"m2", "invariant", "provisional", "short_term", Option.none⟩
    ⟨"m2", 1, 2, 0, 0, some (-31536000), Option.none⟩ 0 rfl rfl (by decide)

/-- C3 counterexample: from a table satisfying `use_count ≤ opportunities`
(the fresh row of `insert_memory`), a single `increment_use_count` leaves the
incremented row with `use_count = 1 > 0 = opportunities` — the operation does
not preserve the invariant. -/
theorem increment_use_count_breaks_invariant :
    metricsInv [initialMetricsRow "m"] ∧
      ¬ metricsInv (increment_use_count [initialMetricsRow "m"] "m" 0) := by
  constructor
  · decide
  · decide

/-- C3 amended: `insert_memory` creates the metrics row with all counters 0
and `increment_opportunities` preserves `use_count ≤ opportunities` on every
memory, but `increment_use_count` only preserves it when the targeted
memory's `use_count` is strictly below its `opportunities` — it bumps
`use_count` without touching `opportunities`. -/
theorem metrics_ops_preservation
    (tbl : List MetricsRow) (id : String) (ids : List String) (now : Int)
    (hinv : metricsInv tbl) :
    metricsInv (insert_memory_metrics tbl id) ∧
      metricsInv (increment_opportunities tbl ids) ∧
      ((∀ r ∈ tbl, r.memory_id = id → r.use_count < r.opportunities) →
        metricsInv (increment_use_count tbl id now)) := by
  refine ⟨?_, ?_, ?_⟩
  · intro r hr
    rcases List.mem_append.mp hr with h | h
    · exact hinv r h
    · rcases List.mem_singleton.mp h with rfl
      simp [initialMetricsRow]
  · unfold increment_opportunities
    split
    · exact hinv
    · intro r hr
      rcases List.mem_map.mp hr with ⟨a, ha, rfl⟩
      by_cases hm : a.memory_id ∈ ids
      · simp only [if_pos hm]
        have := hinv a ha
        omega
      · simp only [if_neg hm]
        exact hinv a ha
  · intro hstrict r hr
    rcases List.mem_map.mp hr with ⟨a, ha, rfl⟩
    by_cases hm : a.memory_id = id
    · simp only [if_pos hm]
      have := hstrict a ha hm
      omega
    · simp only [if_neg hm]
      exact hinv a ha

/-- Witness for the amended C3 on a one-row table with
`use_count = 0 < 1 = opportunities`. -/
theorem metrics_ops_preservation_witness :
    metricsInv (insert_memory_metrics [⟨"a", 0, 1, 0, 0, Option.none⟩] "b") ∧
      metricsInv (increment_opportunities [⟨"a", 0, 1, 0, 0, Option.none⟩] ["a"]) ∧
      metricsInv (increment_use_count [⟨"a", 0, 1, 0, 0, Option.none⟩] "a" 5) := by
  have h := metrics_ops_preservation [⟨"a", 0, 1, 0, 0, Option.none⟩] "b" ["a"] 5 (by decide)
  have h3 := metrics_ops_preservation [⟨"a", 0, 1, 0, 0, Option.none⟩] "a" ["a"] 5 (by decide)
  exact ⟨h.1, h.2.1, h3.2.2 (by decide)⟩

/-- C4: packing a vector of float32 bit patterns as consecutive little-endian
4-byte groups and unpacking recovers the vector exactly, and the byte length
is 4 times the vector length. -/
theorem embedding_bytes_round_trip
    (v : List Nat) (h : ∀ x ∈ v, x < 4294967296) :
    bytes_to_embedding (embedding_to_bytes v) = v ∧
      (embedding_to_bytes v).length = 4 * v.length := by
  constructor
  · induction v with
    | nil => rfl
    | cons x xs ih =>
      have hx : x < 4294967296 := h x (List.mem_cons_self x xs)
      have hstep : bytes_to_embedding (embedding_to_bytes (x :: xs)) =
          fromLEBytes (x % 256) (x / 256 % 256) (x / 65536 % 256) (x / 16777216 % 256) ::
            bytes_to_embedding (embedding_to_bytes xs) := rfl
      rw [hstep, ih (fun y hy => h y (List.mem_cons_of_mem _ hy))]
      have : fromLEBytes (x % 256) (x / 256 % 256) (x / 65536 % 256) (x / 16777216 % 256) = x := by
        unfold fromLEBytes
        omega
      rw [this]
  · induction v with
    | nil => rfl
    | cons x xs ih =>
      have : embedding_to_bytes (x :: xs) = toLEBytes x ++ embedding_to_bytes xs := by
        simp [embedding_to_bytes]
      rw [this, List.length_append, ih (fun y hy => h y (List.mem_cons_of_mem _ hy))]
      simp [toLEBytes]
      ring

/-- Witness for C4 on a three-element vector including both extreme
32-bit patterns. -/
theorem embedding_bytes_round_trip_witness :
    bytes_to_embedding (embedding_to_bytes [0, 1, 4294967295]) = [0, 1, 4294967295] ∧
      (embedding_to_bytes [0, 1, 4294967295]).length = 4 * 3 :=
  embedding_bytes_round_trip [0, 1, 4294967295] (by decide)

/-- C7 (failing input): a request line without an `id` member whose handler
raises is still answered — the read loop writes one response with id null
and code -32603, where the spec requires a notification to produce no
response. -/
theorem notification_still_receives_response :
    handle_line (.ok ⟨Option.none, "embed_text"⟩) (fun _ => .exn "boom") =
      some ⟨Option.none, true, some (-32603)⟩ := rfl

/-- Retry loop under a provider that fails retryably on every call: each of
the allowed iterations is used, the slept delays follow the geometric
schedule, and the final error carries the last provider failure. -/
theorem embedGo_all_retryable
    (provider : Nat → Except (List Char) (List ℚ)) (err : Nat → List Char)
    (herr : ∀ j, provider j = .error (err j) ∧ is_retryable_error (err j) = true)
    (β : ℚ) (r : Nat) :
    ∀ i d last, embedGo provider β (r + 1) i d last =
      ⟨r + 1, (List.range r).map (fun k => d * β ^ k),
        .error ⟨-32041, some (err (i + r))⟩⟩ := by
  induction r with
  | zero =>
    intro i d last
    rw [embedGo, (herr i).1]
    simp [(herr i).2]
  | succ r2 ih =>
    intro i d last
    rw [embedGo, (herr i).1]
    simp only [(herr i).2, if_true]
    rw [ih (i + 1) (d * β) (some (err i))]
    have hidx : i + 1 + r2 = i + (r2 + 1) := by omega
    have hsl : d :: (List.range r2).map (fun k => d * β * β ^ k) =
        (List.range (r2 + 1)).map (fun k => d * β ^ k) := by
      rw [List.range_succ_eq_map, List.map_cons, List.map_map]
      simp only [pow_zero, mul_one]
      congr 1
      apply List.map_congr_left
      intro a _
      simp only [Function.comp_apply, Nat.succ_eq_add_one, pow_succ]
      ring
    rw [hidx, ← hsl]

/-- C5 amended: with a provider failing retryably on every call and nonblank
text, `embed_text_sync` makes exactly `max_retries + 1` provider attempts
(one initial call plus up to `max_retries` retries — not at most
`max_retries`), sleeps `delay * backoff ^ k` between attempts `k` and
`k + 1`, and finally fails with code -32041 carrying the last provider
error as its cause. -/
theorem embed_sync_exhausts_all_attempts
    (provider : Nat → Except (List Char) (List ℚ)) (err : Nat → List Char)
    (herr : ∀ j, provider j = .error (err j) ∧ is_retryable_error (err j) = true)
    (cfg : EmbeddingConfig) (text : List Char)
    (htext : isBlank text = false) :
    (embed_text_sync provider cfg text).attempts = cfg.max_retries + 1 ∧
      (embed_text_sync provider cfg text).sleeps =
        (List.range cfg.max_retries).map (fun k => cfg.retry_delay * cfg.retry_backoff ^ k) ∧
      (embed_text_sync provider cfg text).result =
        .error ⟨-32041, some (err cfg.max_retries)⟩ := by
  unfold embed_text_sync
  rw [if_neg (by simp [htext])]
  rw [embedGo_all_retryable provider err herr cfg.retry_backoff cfg.max_retries 0
    cfg.retry_delay Option.none]
  simp

/-- Witness for the amended C5 at the default configuration and a provider
that always times out: 4 attempts, sleeps 1 s, 2 s, 4 s, final -32041. -/
theorem embed_sync_exhausts_all_attempts_witness :
    (embed_text_sync (fun _ => .error "timeout".data) defaultEmbeddingConfig "hi".data).attempts =
        defaultEmbeddingConfig.max_retries + 1 ∧
      (embed_text_sync (fun _ => .error "timeout".data) defaultEmbeddingConfig "hi".data).sleeps =
        (List.range defaultEmbeddingConfig.max_retries).map
          (fun k => defaultEmbeddingConfig.retry_delay * defaultEmbeddingConfig.retry_backoff ^ k) ∧
      (embed_text_sync (fun _ => .error "timeout".data) defaultEmbeddingConfig "hi".data).result =
        .error ⟨-32041, some "timeout".data⟩ := by
  have htm : is_retryable_error "timeout".data = true := by decide
  exact embed_sync_exhausts_all_attempts (fun _ => .error "timeout".data)
    (fun _ => "timeout".data) (fun _ => ⟨rfl, htm⟩) defaultEmbeddingConfig "hi".data (by decide)

/-- C5 counterexample: under the default configuration (`max_retries = 3`)
an always-retryably-failing provider is called 4 times, exceeding the
claimed cap of 3 attempts. -/
theorem embed_sync_attempt_count_exceeds_cap :
    (embed_text_sync (fun _ => .error "timeout".data) defaultEmbeddingConfig "hi".data).attempts
        = 4 ∧
      ¬ ((embed_text_sync (fun _ => .error "timeout".data)
          defaultEmbeddingConfig "hi".data).attempts ≤ 3) := by
  have h4 : (embed_text_sync (fun _ => .error "timeout".data)
      defaultEmbeddingConfig "hi".data).attempts = 4 := rfl
  exact ⟨h4, by rw [h4]; omega⟩

/-- Mapping a character function over both pattern and text preserves the
prefix relation. -/
theorem isPrefixOf_map (f : Char → Char) (p : List Char) :
    ∀ l : List Char, p.isPrefixOf l = true → (p.map f).isPrefixOf (l.map f) = true := by
  induction p with
  | nil => intro l _; simp [List.isPrefixOf]
  | cons a as ih =>
    intro l h
    cases l with
    | nil => simp [List.isPrefixOf] at h
    | cons b bs =>
      simp only [List.isPrefixOf, Bool.and_eq_true, beq_iff_eq] at h
      simp only [List.map_cons, List.isPrefixOf, Bool.and_eq_true, beq_iff_eq]
      exact ⟨by rw [h.1], ih bs h.2⟩

/-- Mapping a character function over both pattern and text preserves
substring containment. -/
theorem containsSeq_map (f : Char → Char) (p : List Char) :
    ∀ l : List Char, containsSeq p l = true → containsSeq (p.map f) (l.map f) = true := by
  intro l
  induction l with
  | nil =>
    intro h
    simp only [containsSeq] at h ⊢
    exact isPrefixOf_map f p [] h
  | cons c cs ih =>
    intro h
    simp only [containsSeq, Bool.or_eq_true] at h ⊢
    rcases h with h | h
    · exact Or.inl (isPrefixOf_map f p (c :: cs) h)
    · exact Or.inr (ih h)

/-- C8 amended: a user message containing three or more consecutive
exclamation marks (the substring `!!!`, which is what the severe pattern
`!!{2,}` requires) is classified severe — the severe rules are evaluated
first, so any other matching pattern is irrelevant. -/
theorem triple_exclamation_is_severe (t : List Char)
    (h : containsSeq "!!!".data t = true) :
    detect_frustration t = .severe := by
  have hlow : containsSeq "!!!".data (t.map Char.toLower) = true := by
    have := containsSeq_map Char.toLower "!!!".data t h
    simpa using this
  unfold detect_frustration
  rw [if_pos]
  show severeMatch (t.map Char.toLower) = true
  simp [severeMatch, hlow]

/-- Witness for the amended C8. -/
theorem triple_exclamation_is_severe_witness :
    detect_frustration "no!!! stop".data = .severe :=
  triple_exclamation_is_severe "no!!! stop".data (by decide)

/-- C8 counterexample: `ok!!` contains two consecutive exclamation marks,
yet the detector classifies it as `none` — the severe pattern `!!{2,}`
demands at least three. -/
theorem double_exclamation_not_severe :
    containsSeq "!!".data "ok!!".data = true ∧
      detect_frustration "ok!!".data ≠ .severe := by
  constructor
  · decide
  · decide

/-- Characterization of `_similar_errors`: both word sets are nonempty and
the distinct common words strictly exceed 30% of the smaller set, stated by
Nat cross-multiplication. -/
theorem similar_errors_iff (e1 e2 : List Char) :
    similar_errors e1 e2 = true ↔
      splitWs e1 ≠ [] ∧ splitWs e2 ≠ [] ∧
        3 * min (wordSet e1).length (wordSet e2).length <
          10 * ((wordSet e1).filter (fun w => w ∈ wordSet e2)).length := by
  unfold similar_errors
  simp only []
  by_cases h1 : wordSet e1 = []
  · have hs1 : splitWs e1 = [] := (List.dedup_eq_nil _).mp h1
    simp [h1, hs1]
  · by_cases h2 : wordSet e2 = []
    · have hs2 : splitWs e2 = [] := (List.dedup_eq_nil _).mp h2
      simp [h2, hs2]
    · have hs1 : splitWs e1 ≠ [] := fun h => h1 (by simp [wordSet, h])
      have hs2 : splitWs e2 ≠ [] := fun h => h2 (by simp [wordSet, h])
      rw [if_neg (by simp [h1, h2])]
      rw [decide_eq_true_iff]
      have hm : (0 : ℚ) < ((min (wordSet e1).length (wordSet e2).length : Nat) : ℚ) := by
        have l1 : 0 < (wordSet e1).length := List.length_pos.mpr h1
        have l2 : 0 < (wordSet e2).length := List.length_pos.mpr h2
        exact_mod_cast Nat.lt_min.mpr ⟨l1, l2⟩
      rw [gt_iff_lt, div_lt_div_iff₀ (by norm_num) hm]
      constructor
      · intro h
        refine ⟨hs1, hs2, ?_⟩
        have hn : 3 * min (wordSet e1).length (wordSet e2).length <
            ((wordSet e1).filter (fun w => w ∈ wordSet e2)).length * 10 := by
          exact_mod_cast h
        omega
      · intro h
        have hn : 3 * min (wordSet e1).length (wordSet e2).length <
            ((wordSet e1).filter (fun w => w ∈ wordSet e2)).length * 10 := by omega
        exact_mod_cast hn

/-- `errorKeys` on an error event with nonempty summary. -/
theorem errorKeys_cons_of_error (e : Event) (es : List Event)
    (h : (e.is_error && !e.summary.isEmpty) = true) :
    errorKeys (e :: es) = errorKey e :: errorKeys es := by
  have h3 : e.is_error = true ∧ ¬ e.summary = [] := by simpa using h
  simp [errorKeys, List.filterMap_cons, h3.1, h3.2]

/-- `errorKeys` skips non-error events. -/
theorem errorKeys_cons_of_skip (e : Event) (es : List Event)
    (h : (e.is_error && !e.summary.isEmpty) = false) :
    errorKeys (e :: es) = errorKeys es := by
  simp only [errorKeys, List.filterMap_cons]
  rw [if_neg]
  intro hcon
  rw [h] at hcon
  exact Bool.false_ne_true hcon

/-- The retry-detection loop equals the indexed count of error keys similar
to one of the last five keys before them, with `prev` generalizing the
already-recorded keys. -/
theorem detectRetryGo_spec (events : List Event) :
    ∀ (prev : List (List Char)) (n : Nat),
      detectRetryGo events prev n =
        n + ((List.range (errorKeys events).length).filter (fun j =>
          (lastN 5 (prev ++ (errorKeys events).take j)).any
            (fun p => similar_errors ((errorKeys events).getD j []) p))).length := by
  induction events with
  | nil =>
    intro prev n
    simp [detectRetryGo, errorKeys]
  | cons e es ih =>
    intro prev n
    by_cases h : (e.is_error && !e.summary.isEmpty) = true
    · rw [detectRetryGo, if_pos h, ih, errorKeys_cons_of_error e es h]
      rw [List.length_cons, List.range_succ_eq_map, List.filter_cons]
      have hshift :
          ((List.map Nat.succ (List.range (errorKeys es).length)).filter (fun j =>
            (lastN 5 (prev ++ (errorKey e :: errorKeys es).take j)).any
              (fun p => similar_errors ((errorKey e :: errorKeys es).getD j []) p))).length =
          ((List.range (errorKeys es).length).filter (fun j =>
            (lastN 5 ((prev ++ [errorKey e]) ++ (errorKeys es).take j)).any
              (fun p => similar_errors ((errorKeys es).getD j []) p))).length := by
        rw [List.filter_map]
        rw [List.length_map]
        congr 1
        apply List.filter_congr
        intro j _
        simp only [Function.comp_apply, Nat.succ_eq_add_one, List.take_succ_cons,
          List.getD_cons_succ, List.append_assoc, List.singleton_append]
      simp only [List.take_zero, List.append_nil, List.getD_cons_zero]
      cases hh : (lastN 5 prev).any (fun p => similar_errors (errorKey e) p) with
      | true =>
        simp only [hh, if_true, List.length_cons]
        rw [hshift]
        omega
      | false =>
        simp only [hh, Bool.false_eq_true, if_false]
        rw [hshift]
    · rw [Bool.not_eq_true] at h
      rw [detectRetryGo]
      simp only [h, Bool.false_eq_true, if_false]
      rw [ih, errorKeys_cons_of_skip e es h]

/-- C9 amended: two error prefixes are similar exactly when both word sets
are nonempty and the distinct common words are strictly more than 30% of the
smaller set (the source compares with `>` rather than `≥`), and the
retry-loop count equals the number of error events whose key is similar to
one of the last five keys recorded before it. -/
theorem similar_errors_strict_and_retry_count :
    (∀ e1 e2 : List Char,
      similar_errors e1 e2 = true ↔
        splitWs e1 ≠ [] ∧ splitWs e2 ≠ [] ∧
          3 * min (wordSet e1).length (wordSet e2).length <
            10 * ((wordSet e1).filter (fun w => w ∈ wordSet e2)).length) ∧
      ∀ events : List Event, detect_retry_loops events = retrySpecCount events := by
  refine ⟨similar_errors_iff, ?_⟩
  intro events
  unfold detect_retry_loops retrySpecCount
  rw [detectRetryGo_spec events [] 0]
  simp

/-- Witness for the amended C9: a concrete similar pair (2 of 3 words in
common) and a concrete event list on which the loop and the indexed count
agree. -/
theorem similar_errors_strict_and_retry_count_witness :
    similar_errors "error: x failed".data "error: y failed".data = true ∧
      detect_retry_loops
          [⟨0, .assistant, .tool_result, "error: x failed".data, Option.none, Option.none, true⟩,
           ⟨9, .assistant, .tool_result, "error: y failed".data, Option.none, Option.none, true⟩] =
        retrySpecCount
          [⟨0, .assistant, .tool_result, "error: x failed".data, Option.none, Option.none, true⟩,
           ⟨9, .assistant, .tool_result, "error: y failed".data, Option.none, Option.none, true⟩] := by
  refine ⟨(similar_errors_strict_and_retry_count.1 _ _).mpr (by decide), ?_⟩
  exact similar_errors_strict_and_retry_count.2 _

/-- C9 counterexample: two ten-word errors sharing exactly three distinct
words sit exactly at the 30% boundary of the smaller set, and the source
does not count them as similar — the claimed `≥ 30%` rule would. -/
theorem similarity_at_exact_threshold_not_similar :
    ((wordSet "a b c d e f g h i j".data).filter
        (fun w => w ∈ wordSet "a b c k l m n o p q".data)).length = 3 ∧
      (wordSet "a b c d e f g h i j".data).length = 10 ∧
      (wordSet "a b c k l m n o p q".data).length = 10 ∧
      similar_errors "a b c d e f g h i j".data "a b c k l m n o p q".data = false := by
  refine ⟨by decide, by decide, by decide, ?_⟩
  rw [Bool.eq_false_iff]
  intro htrue
  have h := (similar_errors_iff "a b c d e f g h i j".data "a b c k l m n o p q".data).mp htrue
  exact absurd h.2.2 (by decide)

/-- Membership in an `insertDesc` result. -/
theorem mem_insertDesc (key : α → ℝ) (x : α) :
    ∀ (l : List α) (z : α), z ∈ insertDesc key x l ↔ z = x ∨ z ∈ l := by
  intro l
  induction l with
  | nil => intro z; simp [insertDesc]
  | cons y ys ih =>
    intro z
    unfold insertDesc
    by_cases hc : key y ≤ key x
    · rw [if_pos hc]
      simp [List.mem_cons]
    · rw [if_neg hc]
      simp only [List.mem_cons, ih]
      tauto

/-- `insertDesc` preserves the descending order. -/
theorem pairwise_insertDesc (key : α → ℝ) (x : α) :
    ∀ l : List α, l.Pairwise (fun a b => key b ≤ key a) →
      (insertDesc key x l).Pairwise (fun a b => key b ≤ key a) := by
  intro l
  induction l with
  | nil => intro _; simp [insertDesc]
  | cons y ys ih =>
    intro h
    rw [List.pairwise_cons] at h
    unfold insertDesc
    by_cases hc : key y ≤ key x
    · rw [if_pos hc]
      rw [List.pairwise_cons]
      constructor
      · intro z hz
        rcases List.mem_cons.mp hz with rfl | hz2
        · exact hc
        · exact le_trans (h.1 z hz2) hc
      · exact List.pairwise_cons.mpr h
    · rw [if_neg hc]
      rw [List.pairwise_cons]
      refine ⟨?_, ih h.2⟩
      intro z hz
      rcases (mem_insertDesc key x ys z).mp hz with rfl | hz2
      · exact le_of_not_le hc
      · exact h.1 z hz2

/-- `sortDesc` sorts descending by key. -/
theorem sortDesc_pairwise (key : α → ℝ) :
    ∀ l : List α, (sortDesc key l).Pairwise (fun a b => key b ≤ key a) := by
  intro l
  induction l with
  | nil => simp [sortDesc]
  | cons x xs ih =>
    rw [sortDesc]
    exact pairwise_insertDesc key x _ ih

/-- `sortDesc` permutes: membership is preserved. -/
theorem mem_sortDesc (key : α → ℝ) :
    ∀ (l : List α) (z : α), z ∈ sortDesc key l ↔ z ∈ l := by
  intro l
  induction l with
  | nil => intro z; simp [sortDesc]
  | cons x xs ih =>
    intro z
    rw [sortDesc, mem_insertDesc]
    simp [ih]

/-- On a list of constant key, the stable sort is the identity: the source's
sort never reorders rank-score ties. -/
theorem sortDesc_const (key : α → ℝ) (c : ℝ) :
    ∀ l : List α, (∀ y ∈ l, key y = c) → sortDesc key l = l := by
  intro l
  induction l with
  | nil => intro _; rfl
  | cons x xs ih =>
    intro h
    rw [sortDesc, ih (fun y hy => h y (List.mem_cons_of_mem _ hy))]
    cases xs with
    | nil => rfl
    | cons y ys =>
      unfold insertDesc
      rw [if_pos]
      rw [h y (List.mem_cons_of_mem _ (List.mem_cons_self _ _)),
        h x (List.mem_cons_self _ _)]

/-- The candidates kept by the similarity filter, projected to memories,
are the store entries meeting the threshold, in store order. -/
theorem scored_fst (q : List ℝ) (min_similarity : ℝ) :
    ∀ store : List StoredMemory,
      (store.filterMap (fun stored =>
        let s := cosineSim q stored.embedding
        if s ≥ min_similarity then some (stored, s, rank_score stored.memory s)
        else Option.none)).map (fun x => x.1) =
        store.filter (fun s => cosineSim q s.embedding ≥ min_similarity) := by
  intro store
  induction store with
  | nil => rfl
  | cons st sts ih =>
    by_cases hc : cosineSim q st.embedding ≥ min_similarity
    · simp [List.filterMap_cons, List.filter_cons, hc, ih]
    · simp [List.filterMap_cons, List.filter_cons, hc, ih]

/-- Every triple produced by the similarity filter records the candidate, its
raw cosine similarity (meeting the threshold), and its rank score. -/
theorem scored_elems (q : List ℝ) (min_similarity : ℝ) (store : List StoredMemory) :
    ∀ x ∈ (store.filterMap (fun stored =>
        let s := cosineSim q stored.embedding
        if s ≥ min_similarity then some (stored, s, rank_score stored.memory s)
        else Option.none)),
      x.1 ∈ store ∧ x.2.1 = cosineSim q x.1.embedding ∧
        x.2.2 = rank_score x.1.memory x.2.1 ∧ x.2.1 ≥ min_similarity := by
  intro x hx
  rcases List.mem_filterMap.mp hx with ⟨st, hst, hf⟩
  simp only [] at hf
  by_cases hc : cosineSim q st.embedding ≥ min_similarity
  · rw [if_pos hc] at hf
    cases hf
    exact ⟨hst, rfl, rfl, hc⟩
  · rw [if_neg hc] at hf
    cases hf

/-- C6 amended: the retrieval result contains only candidates meeting the
similarity threshold, at most `top_k` of them, ordered descending by
`rank_score`, with the raw similarities (not the boosted scores) returned;
ties in rank score are not reordered by `created_at` — the sort is stable,
and when all candidates tie the output is exactly the threshold-passing
store prefix in insertion order. -/
theorem retrieve_ranking_characterization
    (store : List StoredMemory) (q : List ℝ) (top_k : Nat) (min_similarity : ℝ) :
    ((retrieve store q top_k min_similarity).scores =
        (retrieve store q top_k min_similarity).memories.map
          (fun m => cosineSim q m.embedding)) ∧
      (∀ m ∈ (retrieve store q top_k min_similarity).memories,
        cosineSim q m.embedding ≥ min_similarity) ∧
      ((retrieve store q top_k min_similarity).memories.length ≤ top_k) ∧
      ((retrieve store q top_k min_similarity).memories.Pairwise (fun a b =>
        rank_score b.memory (cosineSim q b.embedding) ≤
          rank_score a.memory (cosineSim q a.embedding))) ∧
      (∀ c : ℝ, (∀ s ∈ store, rank_score s.memory (cosineSim q s.embedding) = c) →
        (retrieve store q top_k min_similarity).memories =
          (store.filter (fun s => cosineSim q s.embedding ≥ min_similarity)).take top_k) := by
  by_cases hs : store.isEmpty
  · have hnil : store = [] := List.isEmpty_iff.mp hs
    subst hnil
    simp [retrieve]
  · unfold retrieve
    rw [if_neg (by simp [hs])]
    simp only []
    set scored := store.filterMap (fun stored =>
      let s := cosineSim q stored.embedding
      if s ≥ min_similarity then some (stored, s, rank_score stored.memory s)
      else Option.none) with hscored
    set sorted := sortDesc (fun x => x.2.2) scored with hsorted
    set top := sorted.take top_k with htop
    have htopmem : ∀ x ∈ top, x.1 ∈ store ∧ x.2.1 = cosineSim q x.1.embedding ∧
        x.2.2 = rank_score x.1.memory x.2.1 ∧ x.2.1 ≥ min_similarity := by
      intro x hx
      have hx2 : x ∈ sorted := List.mem_of_mem_take hx
      have hx3 : x ∈ scored := (mem_sortDesc _ scored x).mp hx2
      exact scored_elems q min_similarity store x hx3
    refine ⟨?_, ?_, ?_, ?_, ?_⟩
    · show top.map (fun x => x.2.1) = (top.map (fun x => x.1)).map (fun m => cosineSim q m.embedding)
      rw [List.map_map]
      apply List.map_congr_left
      intro x hx
      exact (htopmem x hx).2.1
    · intro m hm
      rcases List.mem_map.mp hm with ⟨x, hx, rfl⟩
      have h := htopmem x hx
      rw [← h.2.1]
      exact h.2.2.2
    · rw [List.length_map, htop, List.length_take]
      exact min_le_left _ _
    · rw [List.pairwise_map]
      have hp : top.Pairwise (fun a b => (fun x => x.2.2) b ≤ (fun x => x.2.2) a) :=
        (sortDesc_pairwise (fun x => x.2.2) scored).sublist (List.take_sublist _ _)
      refine hp.imp_of_mem ?_
      intro a b ha hb hab
      have h1 := htopmem a ha
      have h2 := htopmem b hb
      rw [← h1.2.1, ← h1.2.2.1, ← h2.2.1, ← h2.2.2.1]
      exact hab
    · intro c hc
      have hconst : ∀ x ∈ scored, (fun x => x.2.2) x = c := by
        intro x hx
        have h := scored_elems q min_similarity store x hx
        show x.2.2 = c
        rw [h.2.2.1, h.2.1]
        exact hc x.1 h.1
      have hsorteq : sorted = scored := by
        rw [hsorted]
        exact sortDesc_const _ c scored hconst
      rw [htop, hsorteq, List.map_take, hscored, scored_fst q min_similarity store]

/-- Witness for the amended C6 on a concrete two-memory store where all rank
scores tie: the result is the threshold-passing store prefix in insertion
order, of length at most `top_k`. -/
theorem retrieve_ranking_characterization_witness :
    (retrieve [⟨⟨"note", "short_term", 1, "a"⟩, [1], "mem_0"⟩,
        ⟨⟨"note", "short_term", 1, "b"⟩, [1], "mem_1"⟩] [1] 10 0).memories.length ≤ 10 ∧
      (retrieve [⟨⟨"note", "short_term", 1, "a"⟩, [1], "mem_0"⟩,
          ⟨⟨"note", "short_term", 1, "b"⟩, [1], "mem_1"⟩] [1] 10 0).memories =
        ([⟨⟨"note", "short_term", 1, "a"⟩, [1], "mem_0"⟩,
          ⟨⟨"note", "short_term", 1, "b"⟩, [1], "mem_1"⟩].filter
            (fun s => cosineSim [1] s.embedding ≥ 0)).take 10 := by
  have h := retrieve_ranking_characterization
    [⟨⟨"note", "short_term", 1, "a"⟩, [1], "mem_0"⟩,
     ⟨⟨"note", "short_term", 1, "b"⟩, [1], "mem_1"⟩] [1] 10 0
  refine ⟨h.2.2.1, h.2.2.2.2 (cosineSim [1] [1]) ?_⟩
  intro s hs
  rcases List.mem_cons.mp hs with rfl | hs2
  · simp [rank_score, tier_boost, kind_boost]
  · rcases List.mem_cons.mp hs2 with rfl | h3
    · simp [rank_score, tier_boost, kind_boost]
    · simp at h3

/-- C6 counterexample: two identical-similarity, identical-boost memories —
equal rank scores — come back in store insertion order `mem_0, mem_1`; the
claimed tie-break by more recent `created_at` would instead put the
later-added `mem_1` first (no `created_at` exists on the stored record at
all). -/
theorem retrieve_tie_keeps_insertion_order :
    (retrieve [⟨⟨"note", "short_term", 1, "a"⟩, [1], "mem_0"⟩,
        ⟨⟨"note", "short_term", 1, "b"⟩, [1], "mem_1"⟩] [1] 10 0).memories.map
        (fun m => m.id) = ["mem_0", "mem_1"] ∧
      rank_score (⟨"note", "short_term", 1, "a"⟩ : MemoryOpR) (cosineSim [1] [1]) =
        rank_score (⟨"note", "short_term", 1, "b"⟩ : MemoryOpR) (cosineSim [1] [1]) := by
  have hcos : cosineSim [(1 : ℝ)] [(1 : ℝ)] = 1 := by
    unfold cosineSim normList dotList
    simp [Real.sqrt_one]
  constructor
  · norm_num [retrieve, sortDesc, insertDesc, List.filterMap_cons, hcos, rank_score,
      tier_boost, kind_boost]
  · simp [rank_score, tier_boost, kind_boost]

/-- A boundary candidate produced for index `i0` is always `i0 + 1`. -/
theorem boundary_step_eq {x i0 : Nat} {c1 c2 : Prop} [Decidable c1] [Decidable c2]
    (h : (if c1 then some (i0 + 1) else if c2 then some (i0 + 1) else Option.none) = some x) :
    x = i0 + 1 := by
  split at h
  · exact (Option.some_inj.mp h).symm
  · split at h
    · exact (Option.some_inj.mp h).symm
    · cases h

/-- Task boundaries are strictly increasing. -/
theorem find_task_boundaries_sorted (events : List Event) :
    (find_task_boundaries events).Pairwise (· < ·) := by
  unfold find_task_boundaries
  split
  · exact List.pairwise_singleton _ _
  · rw [List.pairwise_cons]
    constructor
    · intro x hx
      rcases List.mem_filterMap.mp hx with ⟨i0, _, hf⟩
      have hx1 : x = i0 + 1 := boundary_step_eq (by simpa using hf)
      omega
    · refine List.Pairwise.filterMap _ ?_ (List.pairwise_lt_range _)
      intro a a2 hlt y hy y2 hy2
      have h1 : y = a + 1 := boundary_step_eq (by simpa using Option.mem_def.mp hy)
      have h2 : y2 = a2 + 1 := boundary_step_eq (by simpa using Option.mem_def.mp hy2)
      omega

/-- Task boundaries stay below the event count for a nonempty list. -/
theorem find_task_boundaries_lt (events : List Event) (hne : events ≠ []) :
    ∀ x ∈ find_task_boundaries events, x < events.length := by
  have hpos : 0 < events.length := List.length_pos.mpr hne
  unfold find_task_boundaries
  split
  · intro x hx
    rcases List.mem_singleton.mp hx with rfl
    exact hpos
  · intro x hx
    rcases List.mem_cons.mp hx with rfl | hx2
    · exact hpos
    · rcases List.mem_filterMap.mp hx2 with ⟨i0, hi0, hf⟩
      have hx1 : x = i0 + 1 := boundary_step_eq (by simpa using hf)
      have hlt : i0 < events.length - 1 := List.mem_range.mp hi0
      omega

/-- The boundary list with the end marker appended is strictly increasing. -/
theorem boundaries_with_end_sorted (events : List Event) (hne : events ≠ []) :
    (find_task_boundaries events ++ [events.length]).Pairwise (· < ·) := by
  rw [List.pairwise_append]
  refine ⟨find_task_boundaries_sorted events, List.pairwise_singleton _ _, ?_⟩
  intro a ha y hy
  rcases List.mem_singleton.mp hy with rfl
  exact find_task_boundaries_lt events hne a ha

/-- `getD` is monotone on a strictly increasing list, inside bounds. -/
theorem getD_mono_of_sorted {l : List Nat} (hsort : l.Pairwise (· < ·))
    {i j : Nat} (hij : i ≤ j) (hj : j < l.length) :
    l.getD i 0 ≤ l.getD j 0 := by
  have hi : i < l.length := lt_of_le_of_lt hij hj
  rw [List.getD_eq_getElem l 0 hi, List.getD_eq_getElem l 0 hj]
  rcases Nat.lt_or_ge i j with hlt | hge
  · exact le_of_lt (List.pairwise_iff_getElem.mp hsort i j hi hj hlt)
  · have heq : i = j := le_antisymm hij hge
    subst heq
    exact le_refl _

/-- One split step never turns a nonempty episode list empty. -/
theorem splitStep_ne_nil (events : List Event) (sid pid : String) (bs : List Nat)
    (acc : List Episode) (i : Nat) (h : acc ≠ []) :
    splitStep events sid pid bs acc i ≠ [] := by
  unfold splitStep
  split
  · dsimp only
    split
    · exact h
    · simp [List.append_eq_nil]
  · dsimp only
    split
    · simp [List.append_eq_nil]
    · simp [List.append_eq_nil]

/-- A split step on a segment of at least three events emits an episode. -/
theorem splitStep_ne_nil_of_big (events : List Event) (sid pid : String) (bs : List Nat)
    (acc : List Episode) (i : Nat) (h : ¬ (segmentOf events bs i).length < 3) :
    splitStep events sid pid bs acc i ≠ [] := by
  unfold splitStep
  split
  · dsimp only
    rw [if_neg h]
    simp [List.append_eq_nil]
  · dsimp only
    rw [if_neg h]
    simp [List.append_eq_nil]

/-- The episode fold preserves nonemptiness. -/
theorem foldl_splitStep_ne_nil (events : List Event) (sid pid : String) (bs : List Nat) :
    ∀ (l : List Nat) (acc : List Episode), acc ≠ [] →
      l.foldl (splitStep events sid pid bs) acc ≠ [] := by
  intro l
  induction l with
  | nil => intro acc h; simpa using h
  | cons j l2 ih =>
    intro acc h
    rw [List.foldl_cons]
    exact ih _ (splitStep_ne_nil events sid pid bs acc j h)

/-- The episode fold ends nonempty once some processed segment has at least
three events. -/
theorem foldl_splitStep_ne_nil_of_witness (events : List Event) (sid pid : String)
    (bs : List Nat) :
    ∀ (l : List Nat) (acc : List Episode),
      (∃ i ∈ l, ¬ (segmentOf events bs i).length < 3) →
      l.foldl (splitStep events sid pid bs) acc ≠ [] := by
  intro l
  induction l with
  | nil =>
    rintro acc ⟨i, hi, _⟩
    cases hi
  | cons j l2 ih =>
    rintro acc ⟨i, hi, hbig⟩
    rw [List.foldl_cons]
    rcases List.mem_cons.mp hi with rfl | hi2
    · exact foldl_splitStep_ne_nil events sid pid bs l2 _
        (splitStep_ne_nil_of_big events sid pid bs acc i hbig)
    · exact ih _ ⟨i, hi2, hbig⟩

/-- A step whose segment draws only from the suffix `events.drop b` keeps
every episode's events inside that suffix. -/
theorem splitStep_preserves_subset (events : List Event) (sid pid : String) (bs : List Nat)
    (b : Nat) (acc : List Episode) (i : Nat)
    (hseg : ∀ e ∈ segmentOf events bs i, e ∈ events.drop b)
    (hacc : ∀ ep ∈ acc, ∀ e ∈ ep.events, e ∈ events.drop b) :
    ∀ ep ∈ splitStep events sid pid bs acc i, ∀ e ∈ ep.events, e ∈ events.drop b := by
  unfold splitStep
  split
  · dsimp only
    split
    · exact hacc
    · intro ep hep e he
      rcases List.mem_append.mp hep with h1 | h2
      · exact hacc ep h1 e he
      · rcases List.mem_singleton.mp h2 with rfl
        exact hseg e he
  · rename_i prev hprev
    dsimp only
    split
    · intro ep hep e he
      rcases List.mem_append.mp hep with h1 | h2
      · exact hacc ep (List.mem_of_mem_dropLast h1) e he
      · rcases List.mem_singleton.mp h2 with rfl
        have hprevmem : prev ∈ acc := by
          rcases List.mem_getLast?_eq_getLast (Option.mem_def.mpr hprev) with ⟨hne2, rfl⟩
          exact List.getLast_mem hne2
        rcases List.mem_append.mp he with ha | hb2
        · exact hacc prev hprevmem e ha
        · exact hseg e hb2
    · intro ep hep e he
      rcases List.mem_append.mp hep with h1 | h2
      · exact hacc ep h1 e he
      · rcases List.mem_singleton.mp h2 with rfl
        exact hseg e he

/-- Fold form of `splitStep_preserves_subset`. -/
theorem foldl_splitStep_subset (events : List Event) (sid pid : String) (bs : List Nat)
    (b : Nat) :
    ∀ (l : List Nat) (acc : List Episode),
      (∀ i ∈ l, ∀ e ∈ segmentOf events bs i, e ∈ events.drop b) →
      (∀ ep ∈ acc, ∀ e ∈ ep.events, e ∈ events.drop b) →
      ∀ ep ∈ l.foldl (splitStep events sid pid bs) acc, ∀ e ∈ ep.events, e ∈ events.drop b := by
  intro l
  induction l with
  | nil =>
    intro acc _ hacc
    simpa using hacc
  | cons j l2 ih =>
    intro acc hl hacc
    rw [List.foldl_cons]
    exact ih _ (fun i hi => hl i (List.mem_cons_of_mem _ hi))
      (splitStep_preserves_subset events sid pid bs b acc j
        (hl j (List.mem_cons_self _ _)) hacc)

/-- A segment starting at or after index `b` draws from `events.drop b`. -/
theorem segmentOf_subset_drop (events : List Event) (bs : List Nat) (i b : Nat)
    (hstart : b ≤ bs.getD i 0) :
    ∀ e ∈ segmentOf events bs i, e ∈ events.drop b := by
  intro e he
  unfold segmentOf at he
  have h1 : e ∈ events.drop (bs.getD i 0) := List.mem_of_mem_take he
  have h2 : events.drop (bs.getD i 0) = (events.drop b).drop (bs.getD i 0 - b) := by
    rw [List.drop_drop]
    congr 1
    omega
  rw [h2] at h1
  exact List.drop_subset _ _ h1

/-- C10: when boundary segmentation yields a first segment of fewer than 3
events (second boundary `b < 3`) and some later segment has at least 3
events, `split_into_episodes` returns a nonempty episode list whose episodes
draw their events exclusively from `events.drop b`: the short first segment
has no previous episode to merge into and is silently dropped, so its events
(when they do not also occur later) appear in no emitted episode. -/
theorem short_first_segment_dropped
    (events : List Event) (session_id project_id : String) (b : Nat) (rest : List Nat)
    (hb : find_task_boundaries events = 0 :: b :: rest)
    (hshort : b < 3)
    (hbig : ∃ i, 1 ≤ i ∧
      i ∈ List.range ((find_task_boundaries events ++ [events.length]).length - 1) ∧
      3 ≤ (segmentOf events (find_task_boundaries events ++ [events.length]) i).length) :
    split_into_episodes events session_id project_id ≠ [] ∧
      (∀ ep ∈ split_into_episodes events session_id project_id,
        ∀ e ∈ ep.events, e ∈ events.drop b) ∧
      (∀ e ∈ events.take b, e ∉ events.drop b →
        ∀ ep ∈ split_into_episodes events session_id project_id, e ∉ ep.events) := by
  have hne : events ≠ [] := by
    intro h
    subst h
    simp [find_task_boundaries] at hb
  have hsorted := boundaries_with_end_sorted events hne
  set bs := find_task_boundaries events ++ [events.length] with hbsdef
  have hbs : bs = 0 :: b :: (rest ++ [events.length]) := by
    rw [hbsdef, hb]
    rfl
  have hlenbs : bs.length = rest.length + 3 := by
    rw [hbs]
    simp
  have hb1 : bs.getD 1 0 = b := by
    rw [hbs]
    rfl
  have hstart : ∀ i, 1 ≤ i → i < bs.length → b ≤ bs.getD i 0 := by
    intro i h1 h2
    calc b = bs.getD 1 0 := hb1.symm
      _ ≤ bs.getD i 0 := getD_mono_of_sorted hsorted h1 h2
  have hseg0 : (segmentOf events bs 0).length < 3 := by
    unfold segmentOf
    rw [hbs]
    simp only [List.getD_cons_zero, List.getD_cons_succ, Nat.sub_zero, List.drop_zero]
    rw [List.length_take]
    exact lt_of_le_of_lt (min_le_left _ _) hshort
  have hstep0 : splitStep events session_id project_id bs [] 0 = [] := by
    unfold splitStep
    dsimp only
    rw [if_pos hseg0]
    rfl
  obtain ⟨iw, hiw1, hiw2, hiw3⟩ := hbig
  unfold split_into_episodes
  rw [if_neg hne]
  dsimp only
  rw [← hbsdef]
  set E := (List.range (bs.length - 1)).foldl
    (splitStep events session_id project_id bs) [] with hEdef
  have hE : E ≠ [] := by
    rw [hEdef]
    exact foldl_splitStep_ne_nil_of_witness events session_id project_id bs _ []
      ⟨iw, hiw2, by omega⟩
  have hrange : List.range (bs.length - 1) = 0 :: (List.range (bs.length - 2)).map Nat.succ := by
    have h2 : bs.length - 1 = (bs.length - 2) + 1 := by omega
    rw [h2, List.range_succ_eq_map]
  have hmemE : ∀ ep ∈ E, ∀ e ∈ ep.events, e ∈ events.drop b := by
    rw [hEdef, hrange, List.foldl_cons, hstep0]
    apply foldl_splitStep_subset
    · intro i hi
      rcases List.mem_map.mp hi with ⟨i0, hi0, rfl⟩
      have hi0lt : i0 < bs.length - 2 := List.mem_range.mp hi0
      apply segmentOf_subset_drop
      apply hstart
      · omega
      · omega
    · intro ep hep
      exact absurd hep (List.not_mem_nil ep)
  rw [if_neg hE]
  refine ⟨hE, hmemE, ?_⟩
  intro e _ hnot ep hep hcon
  exact hnot (hmemE ep hep e hcon)

/-- Witness for C10: two events, a 49-minute gap, then three events. The
boundary list is `[0, 2]`, the two-event first segment is dropped, and every
emitted episode draws from the suffix after index 2. -/
theorem short_first_segment_dropped_witness :
    split_into_episodes
        [⟨0, .assistant, .tool_call, [], Option.none, Option.none, false⟩,
         ⟨60, .assistant, .tool_call, [], Option.none, Option.none, false⟩,
         ⟨3000, .assistant, .tool_call, [], Option.none, Option.none, false⟩,
         ⟨3060, .assistant, .tool_call, [], Option.none, Option.none, false⟩,
         ⟨3120, .assistant, .tool_call, [], Option.none, Option.none, false⟩] "s" "p" ≠ [] ∧
      ∀ ep ∈ split_into_episodes
          [⟨0, .assistant, .tool_call, [], Option.none, Option.none, false⟩,
           ⟨60, .assistant, .tool_call, [], Option.none, Option.none, false⟩,
           ⟨3000, .assistant, .tool_call, [], Option.none, Option.none, false⟩,
           ⟨3060, .assistant, .tool_call, [], Option.none, Option.none, false⟩,
           ⟨3120, .assistant, .tool_call, [], Option.none, Option.none, false⟩] "s" "p",
        ∀ e ∈ ep.events,
          e ∈ ([⟨0, .assistant, .tool_call, [], Option.none, Option.none, false⟩,
            ⟨60, .assistant, .tool_call, [], Option.none, Option.none, false⟩,
            ⟨3000, .assistant, .tool_call, [], Option.none, Option.none, false⟩,
            ⟨3060, .assistant, .tool_call, [], Option.none, Option.none, false⟩,
            ⟨3120, .assistant, .tool_call, [], Option.none, Option.none, false⟩] :
              List Event).drop 2 := by
  have h := short_first_segment_dropped
    [⟨0, .assistant, .tool_call, [], Option.none, Option.none, false⟩,
     ⟨60, .assistant, .tool_call, [], Option.none, Option.none, false⟩,
     ⟨3000, .assistant, .tool_call, [], Option.none, Option.none, false⟩,
     ⟨3060, .assistant, .tool_call, [], Option.none, Option.none, false⟩,
     ⟨3120, .assistant, .tool_call, [], Option.none, Option.none, false⟩] "s" "p" 2 []
    (by decide) (by decide) ⟨1, by decide, by decide, by decide⟩
  exact ⟨h.1, h.2.1⟩

end Squirrel
